import Mathlib

/-!
Verification of the trash-directory management engine (`trash/trash.py`).

The Python module implements a desktop trash utility: a `Trash` dataclass
holding policy flags (`verbose`, `force`, `recursive`, `interactive`) and
methods `remove_trash`, `list_trash`, `empty_trash`, `restore_trash`,
`cat_trash`, plus the helpers `relative_files`, `read_info`, `ensure_unqiue`
(sic), `perror`, `vprint` and `ask_yes_no`.

This file is a shallow embedding of that module:

* The filesystem is modelled by `TrashState`: the trash `files` area and
  `info` area as association lists keyed by stored name, and the world
  outside the trash as an association list from path strings to nodes.
  A path operated on by the engine is an `EPath`: either an entry of the
  files area (`FILES/<name>`) or an outside path.
* Python filesystem primitives (`Path.exists`, `Path.is_dir`, `Path.unlink`,
  `shutil.rmtree`, `shutil.move`, `Path.read_text`) become total functions
  on `TrashState`; the fallible ones return `Except String`, the error
  string playing the role of `OSError.strerror`.
* `input`-driven prompts are modelled by an oracle `ask : String → Bool`
  (the answer `ask msg` models `input(msg + " (y/N): ").lower() == "y"`);
  every prompt shown is also logged so that "no prompt happened" is a
  provable statement.
* Each operation returns an `OpResult`: the final state, the aggregate
  error count (the Python return value), and the `stderr`/`stdout`/prompt
  logs.  `restore_trash` returns `Except String OpResult` because its final
  `shutil.move` is not wrapped in any `try`: an `OSError` raised there
  propagates out of the loop (all other operations catch their `OSError`s).
* `datetime.now()` is modelled by a `now : String` field of the policy
  record, and `ConfigParser` records are modelled at the parsed level:
  a `.trashinfo` file is a list of sections, each a list of key/value
  pairs (`Trash.remove_trash` writes `[Trash Info]` with `Path` and
  `DeletionDate`; `read_info` looks the two keys up with a default).

Deliberate abstractions (none of which the theorems below depend on):
glob patterns support `*`, `?` and literal characters (no `[...]` classes,
no path separators — the files area is flat in every state we consider);
`Path.name`/`Path.parent` string edge cases with trailing slashes are not
reproduced; outside paths are compared as literal strings, so a
CWD-relative spec is a different key from any `FILES/...` path, exactly as
the engine treats them.
-/

namespace TrashPy

/-! ### String helpers

`Nat.repr`, `String.splitOn`, `String.replace` and friends are either
well-founded or position-based in core, which blocks kernel reduction, so
the handful of string manipulations the source performs are written here
as structural recursions over `String.data`. -/

/-- Characters of `s` before the first `'.'`: this is `name.split('.')[0]`
from `ensure_unqiue`. -/
def stemChars : List Char → List Char
  | [] => []
  | c :: cs => if c == '.' then [] else c :: stemChars cs

/-- Everything before the first dot, `name.split('.')[0]`. -/
def stem (s : String) : String := ⟨stemChars s.data⟩

/-- Split a character list on `'.'` (Python `str.split('.')`); never
returns `[]`. -/
def splitDots : List Char → List (List Char)
  | [] => [[]]
  | c :: cs =>
    match splitDots cs with
    | [] => [[]]
    | h :: t => if c == '.' then [] :: h :: t else (c :: h) :: t

/-- `pathlib.PurePath.suffixes` of a final path component: empty for a name
ending in a dot, otherwise the leading dots are stripped and every
remaining dot starts a suffix (`"a.tar.gz" ↦ [".tar", ".gz"]`). -/
def suffixesOf (name : String) : List String :=
  if name.data.getLast? == some '.' then []
  else ((splitDots (name.data.dropWhile (· == '.'))).drop 1).map fun l => ⟨'.' :: l⟩

/-- Final component of a path string (`pathlib.PurePath.name`). -/
def baseName (p : String) : String :=
  ⟨(p.data.foldl (fun acc c => if c == '/' then [] else acc ++ [c]) [])⟩

/-- Parent of a path string (`pathlib.PurePath.parent`, rendered as the
text before the last `/`; `""` for a bare name, meaning the CWD). -/
def parentOf (p : String) : String :=
  ⟨((p.data.reverse.dropWhile (· != '/')).drop 1).reverse⟩

/-- Glob matcher with explicit fuel (`*`, `?` and literal characters).
The fuel `pat.length + s.length + 1` given by `globMatch` is enough for
every branch, since each step shortens the pattern or the string. -/
def globMatchAux : Nat → List Char → List Char → Bool
  | 0, pat, s => pat.isEmpty && s.isEmpty
  | _ + 1, [], s => s.isEmpty
  | fuel + 1, '*' :: ps, [] => globMatchAux fuel ps []
  | fuel + 1, '*' :: ps, c :: cs =>
    globMatchAux fuel ps (c :: cs) || globMatchAux fuel ('*' :: ps) cs
  | fuel + 1, '?' :: ps, _ :: cs => globMatchAux fuel ps cs
  | _ + 1, _ :: _, [] => false
  | fuel + 1, p :: ps, c :: cs => p == c && globMatchAux fuel ps cs

/-- Does file name `s` match glob pattern `pat`?  Models the matching done
by `Path.glob` against a single directory entry. -/
def globMatch (pat s : String) : Bool :=
  globMatchAux (pat.data.length + s.data.length + 1) pat.data s.data

/-- Lexicographic comparison of character lists, used to model Python's
`list.sort()` over paths in `list_trash`. -/
def charListLe : List Char → List Char → Bool
  | [], _ => true
  | _ :: _, [] => false
  | a :: as, b :: bs => if a == b then charListLe as bs else decide (a < b)

/-- `f"{text:<19}"`: left-justify to width 19. -/
def padTo19 (s : String) : String :=
  ⟨s.data ++ List.replicate (19 - s.data.length) ' '⟩

/-- `str.replace('T', ' ')` for the single-character case. -/
def replaceTBySpace (s : String) : String :=
  ⟨s.data.map fun c => if c == 'T' then ' ' else c⟩

/-! ### Data model -/

/-- Policy bundle: the fields of the `Trash` dataclass that drive
behaviour, plus `now`, the fixed rendering of `datetime.now()` used for
`DeletionDate` (the clock is external input to the program). -/
structure Trash where
  verbose : Bool
  force : Bool
  recursive : Bool
  interactive : Bool
  now : String
deriving Repr

/-- A filesystem node: a regular file with its text content, or a
directory with its children (name/node pairs in iteration order). -/
inductive Node where
  | file (content : String)
  | dir (children : List (String × Node))
deriving Repr

/-- Parsed contents of a `.trashinfo` file as `ConfigParser` sees them:
a list of sections, each section a list of key/value pairs. -/
structure InfoFile where
  sections : List (String × List (String × String))
deriving Repr

/-- The filesystem as the engine sees it: the trash files area and info
area (association lists keyed by stored name — an info entry `(n, f)`
models the file `INFO/<n>.trashinfo` with parsed contents `f`), and the
world outside the trash, keyed by path string. -/
structure TrashState where
  filesA : List (String × Node)
  infoA : List (String × InfoFile)
  world : List (String × Node)
deriving Repr

/-- A path the engine operates on: an entry of the trash files area
(`FILES/<name>`) or an outside path (absolute or CWD-relative). -/
inductive EPath where
  | inFiles (name : String)
  | world (p : String)
deriving Repr

/-- Association-list lookup by string key (first match wins, as in a real
directory where names are unique). -/
def lookupA {α : Type} (l : List (String × α)) (k : String) : Option α :=
  (l.find? fun e => e.1 == k).map fun e => e.2

/-- Remove the entry with key `k`. -/
def eraseA {α : Type} (l : List (String × α)) (k : String) : List (String × α) :=
  l.filter fun e => !(e.1 == k)

/-- Rendering of `self._FILES` (the engine's trash root is fixed here;
the Python code resolves it from `XDG_DATA_HOME` once at startup). -/
def FILESdir : String := "/Trash/files"

/-- Text rendering of an `EPath`, used in messages (`f"{file}"`). -/
def pstr : EPath → String
  | .inFiles n => FILESdir ++ "/" ++ n
  | .world p => p

/-- `Path.name` of an `EPath`. -/
def pname : EPath → String
  | .inFiles n => n
  | .world p => baseName p

/-- `Path.absolute()` as recorded into `Path=` by `remove_trash`; outside
paths are taken as given (the model's world keys are absolute). -/
def pabs : EPath → String
  | .inFiles n => FILESdir ++ "/" ++ n
  | .world p => p

/-- The node at a path, if any (`Path.exists` is `isSome` of this). -/
def nodeAt (st : TrashState) : EPath → Option Node
  | .inFiles n => lookupA st.filesA n
  | .world p => lookupA st.world p

/-- `Path.exists()`. -/
def pexists (st : TrashState) (p : EPath) : Bool := (nodeAt st p).isSome

/-- `Path.is_dir()` (false for a missing path, as in Python). -/
def isDirB (st : TrashState) (p : EPath) : Bool :=
  match nodeAt st p with
  | some (.dir _) => true
  | _ => false

/-- Remove the entry at a path. -/
def eraseP (st : TrashState) : EPath → TrashState
  | .inFiles n => { st with filesA := eraseA st.filesA n }
  | .world p => { st with world := eraseA st.world p }

/-- Create/overwrite the entry at a path (appended, modelling creation
order in directory iteration). -/
def insertP (st : TrashState) (p : EPath) (node : Node) : TrashState :=
  match p with
  | .inFiles n => { st with filesA := eraseA st.filesA n ++ [(n, node)] }
  | .world q => { st with world := eraseA st.world q ++ [(q, node)] }

/-- Child of a directory path. -/
def childPath (p : EPath) (n : String) : EPath :=
  match p with
  | .inFiles q => .inFiles (q ++ "/" ++ n)
  | .world q => .world (q ++ "/" ++ n)

/-- Does the parent directory of `p` exist?  The trash areas always exist
(`__post_init__` creates them); an outside destination needs its parent
present as a directory (`""`, `"/"` and `"."` are the always-present
roots). -/
def parentExistsP (st : TrashState) : EPath → Bool
  | .inFiles _ => true
  | .world p =>
    let par := parentOf p
    par == "" || par == "/" || par == "." ||
      (match lookupA st.world par with
       | some (.dir _) => true
       | _ => false)

/-- `shutil.move(src, dst)`: fails (`FileNotFoundError`) when the source
is missing or the destination's parent directory does not exist; moving
onto an existing directory drops the source inside it, moving onto an
existing file overwrites (POSIX rename). -/
def moveAt (st : TrashState) (src dst : EPath) : Except String TrashState :=
  match nodeAt st src with
  | none => .error "No such file or directory"
  | some node =>
    match nodeAt st dst with
    | some (.dir _) =>
      let d := childPath dst (pname src)
      if pexists st d then .error "Directory not empty"
      else .ok (insertP (eraseP st src) d node)
    | some (.file _) => .ok (insertP (eraseP st src) dst node)
    | none =>
      if parentExistsP st dst then .ok (insertP (eraseP st src) dst node)
      else .error "No such file or directory"

/-- `Path.unlink()`: fails on a missing path or on a directory. -/
def unlinkAt (st : TrashState) (p : EPath) : Except String TrashState :=
  match nodeAt st p with
  | none => .error "No such file or directory"
  | some (.dir _) => .error "Is a directory"
  | some (.file _) => .ok (eraseP st p)

/-- `shutil.rmtree`: fails on a missing path or a plain file, removes a
directory with everything below it. -/
def rmtreeAt (st : TrashState) (p : EPath) : Except String TrashState :=
  match nodeAt st p with
  | none => .error "No such file or directory"
  | some (.file _) => .error "Not a directory"
  | some (.dir _) => .ok (eraseP st p)

/-- `Path.read_text()`: fails on a missing path or a directory. -/
def read_textAt (st : TrashState) (p : EPath) : Except String String :=
  match nodeAt st p with
  | none => .error "No such file or directory"
  | some (.dir _) => .error "Is a directory"
  | some (.file c) => .ok c

/-- `(INFO / f"{name}.trashinfo").write_text(...)` at the parsed level. -/
def writeInfo (st : TrashState) (name : String) (f : InfoFile) : TrashState :=
  { st with infoA := eraseA st.infoA name ++ [(name, f)] }

/-- `(INFO / f"{name}.trashinfo").unlink(missing_ok=True)`: idempotent. -/
def eraseInfo (st : TrashState) (name : String) : TrashState :=
  { st with infoA := eraseA st.infoA name }

end TrashPy

namespace TrashPy

/-! ### The naming resolver `ensure_unqiue`

Source (`trash.py`):
```
def ensure_unqiue(self, name, suffixes, count=2):
    trash = self._FILES / f"{name}"
    info = self._INFO / f"{name}.trashinfo"
    if not trash.exists() and not info.exists():
        return (trash, info)
    return self.ensure_unqiue(
        f"{name.split('.')[0]}.{count}{''.join(suffixes)}", suffixes, count + 1)
```
The function is modelled over the two lists of occupied names (files-area
entries and info-area keys), returning the stored name (the `(trash, info)`
path pair is determined by it).  Termination is by a measure counting the
still-occupied candidate names at indices `≥ count`; the needed bound is
that an occupied candidate's counter is below `10 ^ (longest occupied
name)`, which follows from a length lower bound on `Nat.repr`. -/

/-- Is `name` already used, either as a files-area entry or as the key of
an info-area record (`FILES/<name>` or `INFO/<name>.trashinfo` exists)? -/
def isTaken (filesK infoK : List String) (name : String) : Bool :=
  filesK.contains name || infoK.contains name

/-- The collision candidate `f"{stem}.{count}{''.join(suffixes)}"`. -/
def mkCand (stemS : String) (count : Nat) (sfx : String) : String :=
  stemS ++ "." ++ Nat.repr count ++ sfx

/-- `Nat.toDigitsCore` grows its accumulator and the digits it emits for
`n` are enough to bound `n` by the corresponding power of 10. -/
theorem toDigitsCore_bound (fuel : Nat) : ∀ n ds, n < fuel →
    ds.length < (Nat.toDigitsCore 10 fuel n ds).length ∧
    n < 10 ^ ((Nat.toDigitsCore 10 fuel n ds).length - ds.length) := by
  induction fuel with
  | zero => exact fun n ds h => absurd h (Nat.not_lt_zero n)
  | succ fuel ih =>
    intro n ds h
    simp only [Nat.toDigitsCore]
    by_cases h10 : n / 10 = 0
    · rw [if_pos h10]
      have hn : n < 10 := (Nat.div_eq_zero_iff (by decide)).mp h10
      constructor
      · simp
      · simpa using hn
    · rw [if_neg h10]
      have hn : 0 < n := by
        rcases Nat.eq_zero_or_pos n with h0 | h0
        · exact absurd (by simp [h0]) h10
        · exact h0
      have hlt : n / 10 < n := Nat.div_lt_self hn (by decide)
      have hfuel : n / 10 < fuel := by omega
      obtain ⟨h1, h2⟩ := ih (n / 10) (Nat.digitChar (n % 10) :: ds) hfuel
      simp only [List.length_cons] at h1 h2
      refine ⟨by omega, ?_⟩
      have hk : (Nat.toDigitsCore 10 fuel (n / 10) (Nat.digitChar (n % 10) :: ds)).length
          - ds.length
          = ((Nat.toDigitsCore 10 fuel (n / 10) (Nat.digitChar (n % 10) :: ds)).length
              - (ds.length + 1)) + 1 := by omega
      rw [hk, pow_succ]
      have hdm : 10 * (n / 10) + n % 10 = n := Nat.div_add_mod n 10
      have hmod : n % 10 < 10 := Nat.mod_lt _ (by decide)
      have hstep : n < (n / 10 + 1) * 10 := by omega
      have hmul : (n / 10 + 1) * 10 ≤
          10 ^ ((Nat.toDigitsCore 10 fuel (n / 10) (Nat.digitChar (n % 10) :: ds)).length
            - (ds.length + 1)) * 10 :=
        Nat.mul_le_mul_right _ (by omega)
      exact lt_of_lt_of_le hstep hmul

/-- Every natural number is below `10` to the length of its decimal
rendering. -/
theorem lt_pow_repr_length (n : Nat) : n < 10 ^ (Nat.repr n).length := by
  have h := (toDigitsCore_bound (n + 1) n [] (Nat.lt_succ_self n)).2
  simpa [Nat.repr, Nat.toDigits, List.asString, String.length] using h

/-- Filtering with a weaker predicate keeps at most as many elements. -/
theorem length_filter_le_of_imp {α : Type} (l : List α) (p q : α → Bool)
    (h : ∀ a, q a = true → p a = true) :
    (l.filter q).length ≤ (l.filter p).length := by
  induction l with
  | nil => simp
  | cons x xs ih =>
    by_cases hq : q x = true
    · rw [List.filter_cons_of_pos hq, List.filter_cons_of_pos (h x hq)]
      simpa using ih
    · rw [List.filter_cons_of_neg (by simpa using hq)]
      by_cases hp : p x = true
      · rw [List.filter_cons_of_pos hp]
        exact Nat.le_succ_of_le ih
      · rw [List.filter_cons_of_neg (by simpa using hp)]
        exact ih

/-- Filtering with a strictly weaker predicate (witnessed at a member of
the list) keeps strictly fewer elements. -/
theorem length_filter_lt_of_imp {α : Type} (l : List α) (p q : α → Bool)
    (h : ∀ a, q a = true → p a = true) (x : α) (hx : x ∈ l)
    (hpx : p x = true) (hqx : q x = false) :
    (l.filter q).length < (l.filter p).length := by
  induction l with
  | nil => cases hx
  | cons y ys ih =>
    rcases List.mem_cons.mp hx with rfl | hmem
    · rw [List.filter_cons_of_pos hpx, List.filter_cons_of_neg (by simp [hqx])]
      have := length_filter_le_of_imp ys p q h
      simpa using Nat.lt_succ_of_le this
    · by_cases hq : q y = true
      · rw [List.filter_cons_of_pos (h y hq), List.filter_cons_of_pos hq]
        simpa using ih hmem
      · rw [List.filter_cons_of_neg (by simpa using hq)]
        by_cases hp : p y = true
        · rw [List.filter_cons_of_pos hp]
          exact Nat.lt_succ_of_lt (ih hmem)
        · rw [List.filter_cons_of_neg (by simpa using hp)]
          exact ih hmem

/-- Longest string in a list. -/
def maxLen : List String → Nat
  | [] => 0
  | s :: rest => max s.length (maxLen rest)

theorem length_le_maxLen {s : String} {l : List String} (h : s ∈ l) :
    s.length ≤ maxLen l := by
  induction l with
  | nil => cases h
  | cons x xs ih =>
    rcases List.mem_cons.mp h with rfl | hm
    · exact le_max_left _ _
    · exact le_trans (ih hm) (le_max_right _ _)

/-- An occupied candidate name bounds its own counter: the decimal
rendering of `c` fits inside an occupied name, so `c < 10 ^ maxLen`. -/
theorem count_bound_of_taken (F I : List String) (stemS sfx : String) (c : Nat)
    (h : isTaken F I (mkCand stemS c sfx) = true) :
    c < 10 ^ maxLen (F ++ I) := by
  have hmem : mkCand stemS c sfx ∈ F ++ I := by
    have h' : mkCand stemS c sfx ∈ F ∨ mkCand stemS c sfx ∈ I := by
      simpa [isTaken] using h
    exact List.mem_append.mpr h'
  have hlen : (mkCand stemS c sfx).length ≤ maxLen (F ++ I) := length_le_maxLen hmem
  have hsplit : (mkCand stemS c sfx).length
      = stemS.length + 1 + (Nat.repr c).length + sfx.length := by
    simp [mkCand, String.length_append]
    rfl
  have hrep : (Nat.repr c).length ≤ maxLen (F ++ I) := by omega
  calc c < 10 ^ (Nat.repr c).length := lt_pow_repr_length c
    _ ≤ 10 ^ maxLen (F ++ I) := Nat.pow_le_pow_right (by decide) hrep

/-- Candidate indices `≥ count` whose candidate name is still occupied
(cut off at `euBound`, beyond which no candidate can be occupied). -/
def euSet (F I : List String) (stemS sfx : String) (count : Nat) : List Nat :=
  (List.range (10 ^ maxLen (F ++ I))).filter
    fun c => decide (count ≤ c) && isTaken F I (mkCand stemS c sfx)

/-- Termination measure for `ensure_unqiue`. -/
def euMeasure (F I : List String) (name : String) (sfx : String) (count : Nat) : Nat :=
  2 * (euSet F I (stem name) sfx count).length +
    (if isTaken F I name = true then 1 else 0)

theorem stemChars_append_dot (l rest : List Char) :
    stemChars (stemChars l ++ '.' :: rest) = stemChars l := by
  induction l with
  | nil => simp [stemChars]
  | cons c cs ih =>
    cases hc : c == '.' with
    | true => simp [stemChars, hc]
    | false => simp [stemChars, hc, ih]

/-- The stem of a collision candidate is the stem it was built from:
the stem never contains a dot, and `mkCand` puts a dot right after it. -/
theorem stem_mkCand (s : String) (c : Nat) (sfx : String) :
    stem (mkCand (stem s) c sfx) = stem s := by
  have hdata : (mkCand (stem s) c sfx).data
      = stemChars s.data ++ '.' :: ((Nat.repr c).data ++ sfx.data) := by
    simp [mkCand, stem, String.data_append]
  show String.mk (stemChars (mkCand (stem s) c sfx).data) = _
  rw [hdata, stemChars_append_dot]
  rfl

/-- One collision step strictly decreases the measure. -/
theorem euMeasure_decreasing (F I : List String) (name : String) (sj : String)
    (count : Nat) (h : isTaken F I name = true) :
    euMeasure F I (mkCand (stem name) count sj) sj (count + 1)
      < euMeasure F I name sj count := by
  have himp : ∀ c : Nat,
      (decide (count + 1 ≤ c) && isTaken F I (mkCand (stem name) c sj)) = true →
      (decide (count ≤ c) && isTaken F I (mkCand (stem name) c sj)) = true := by
    intro c hc
    have hc' : count + 1 ≤ c ∧ isTaken F I (mkCand (stem name) c sj) = true := by
      simpa using hc
    simpa using And.intro (Nat.le_of_succ_le hc'.1) hc'.2
  have hle := length_filter_le_of_imp (List.range (10 ^ maxLen (F ++ I)))
    (fun c => decide (count ≤ c) && isTaken F I (mkCand (stem name) c sj))
    (fun c => decide (count + 1 ≤ c) && isTaken F I (mkCand (stem name) c sj)) himp
  simp only [euMeasure, stem_mkCand, if_pos h, euSet]
  by_cases hc : isTaken F I (mkCand (stem name) count sj) = true
  · have hxr : count ∈ List.range (10 ^ maxLen (F ++ I)) :=
      List.mem_range.mpr (count_bound_of_taken F I (stem name) sj count hc)
    have hstrict := length_filter_lt_of_imp (List.range (10 ^ maxLen (F ++ I)))
      (fun c => decide (count ≤ c) && isTaken F I (mkCand (stem name) c sj))
      (fun c => decide (count + 1 ≤ c) && isTaken F I (mkCand (stem name) c sj))
      himp count hxr (by simp [hc]) (by simp)
    rw [if_pos hc]
    omega
  · rw [if_neg hc]
    omega

/-- The naming resolver, `Trash.ensure_unqiue` (the source's spelling):
try `name`; on collision retry with
`f"{name.split('.')[0]}.{count}{''.join(suffixes)}"` and `count + 1`. -/
def ensure_unqiue (F I : List String) (name : String) (suffixes : List String)
    (count : Nat) : String :=
  if h : isTaken F I name = true then
    ensure_unqiue F I (mkCand (stem name) count (String.join suffixes)) suffixes (count + 1)
  else name
termination_by euMeasure F I name (String.join suffixes) count
decreasing_by
  simp_wf
  exact euMeasure_decreasing F I name (String.join suffixes) count h

theorem ensure_unqiue_of_taken (F I : List String) (name : String)
    (sfx : List String) (count : Nat) (h : isTaken F I name = true) :
    ensure_unqiue F I name sfx count
      = ensure_unqiue F I (mkCand (stem name) count (String.join sfx)) sfx (count + 1) := by
  rw [ensure_unqiue]
  exact dif_pos h

theorem ensure_unqiue_of_free (F I : List String) (name : String)
    (sfx : List String) (count : Nat) (h : isTaken F I name = false) :
    ensure_unqiue F I name sfx count = name := by
  rw [ensure_unqiue]
  exact dif_neg (by simp [h])

end TrashPy

namespace TrashPy

/-- The same probe as `ensure_unqiue` instrumented with a step budget:
`ensureSteps ... fuel = some r` says the recursion reaches the unused name
`r` within `fuel` steps. -/
def ensureSteps (F I : List String) : String → List String → Nat → Nat → Option String
  | _, _, _, 0 => none
  | name, sfx, count, fuel + 1 =>
    if isTaken F I name = true then
      ensureSteps F I (mkCand (stem name) count (String.join sfx)) sfx (count + 1) fuel
    else some name

/-- If the step-indexed probe reaches a result, it is `ensure_unqiue`'s. -/
theorem ensureSteps_sound (F I : List String) : ∀ fuel name sfx count r,
    ensureSteps F I name sfx count fuel = some r →
    ensure_unqiue F I name sfx count = r := by
  intro fuel
  induction fuel with
  | zero => intro name sfx count r h; exact absurd h (by simp [ensureSteps])
  | succ fuel ih =>
    intro name sfx count r h
    by_cases ht : isTaken F I name = true
    · rw [ensure_unqiue_of_taken F I name sfx count ht]
      exact ih _ _ _ _ (by simpa [ensureSteps, ht] using h)
    · have hfree : isTaken F I name = false := by simpa using ht
      have hr : name = r := by simpa [ensureSteps, hfree] using h
      rw [ensure_unqiue_of_free F I name sfx count hfree, hr]

/-- The probe always reaches an unused name in finitely many steps (the
measure `euMeasure` strictly decreases at each collision). -/
theorem ensureSteps_complete (F I : List String) (sfx : List String) :
    ∀ n name count, euMeasure F I name (String.join sfx) count = n →
    ∃ fuel r, ensureSteps F I name sfx count fuel = some r := by
  intro n
  induction n using Nat.strong_induction_on with
  | _ n ih =>
    intro name count hm
    by_cases ht : isTaken F I name = true
    · have hdec : euMeasure F I (mkCand (stem name) count (String.join sfx))
          (String.join sfx) (count + 1) < n := by
        rw [← hm]
        exact euMeasure_decreasing F I name (String.join sfx) count ht
      obtain ⟨fuel, r, hr⟩ := ih _ hdec _ _ rfl
      exact ⟨fuel + 1, r, by simpa [ensureSteps, ht] using hr⟩
    · exact ⟨1, name, by simp [ensureSteps, ht]⟩

/-- Whatever the probe returns is an unused name. -/
theorem ensureSteps_free (F I : List String) : ∀ fuel name sfx count r,
    ensureSteps F I name sfx count fuel = some r → isTaken F I r = false := by
  intro fuel
  induction fuel with
  | zero => intro name sfx count r h; exact absurd h (by simp [ensureSteps])
  | succ fuel ih =>
    intro name sfx count r h
    by_cases ht : isTaken F I name = true
    · exact ih _ _ _ _ (by simpa [ensureSteps, ht] using h)
    · have hfree : isTaken F I name = false := by simpa using ht
      have hr : name = r := by simpa [ensureSteps, hfree] using h
      rw [← hr]; exact hfree

/-- On collision the probe returns the first free candidate
`mkCand (stem name) c (join sfx)` with `c ≥ count`, every earlier
candidate being occupied. -/
theorem ensureSteps_form (F I : List String) : ∀ fuel name sfx count r,
    ensureSteps F I name sfx count fuel = some r →
    isTaken F I name = true →
    ∃ c, count ≤ c ∧ r = mkCand (stem name) c (String.join sfx) ∧
      (∀ k, count ≤ k → k < c →
        isTaken F I (mkCand (stem name) k (String.join sfx)) = true) ∧
      isTaken F I (mkCand (stem name) c (String.join sfx)) = false := by
  intro fuel
  induction fuel with
  | zero => intro name sfx count r h _; exact absurd h (by simp [ensureSteps])
  | succ fuel ih =>
    intro name sfx count r h ht
    have h' : ensureSteps F I (mkCand (stem name) count (String.join sfx)) sfx
        (count + 1) fuel = some r := by
      simpa [ensureSteps, ht] using h
    by_cases hc : isTaken F I (mkCand (stem name) count (String.join sfx)) = true
    · obtain ⟨c, hc1, hc2, hc3, hc4⟩ := ih _ _ _ _ h' hc
      rw [stem_mkCand] at hc2 hc3 hc4
      refine ⟨c, by omega, hc2, ?_, hc4⟩
      intro k hk1 hk2
      rcases Nat.eq_or_lt_of_le hk1 with rfl | hk1'
      · exact hc
      · exact hc3 k hk1' hk2
    · have hfree : isTaken F I (mkCand (stem name) count (String.join sfx)) = false := by
        simpa using hc
      have hr : mkCand (stem name) count (String.join sfx) = r := by
        cases fuel with
        | zero => exact absurd h' (by simp [ensureSteps])
        | succ fuel => simpa [ensureSteps, hfree] using h'
      exact ⟨count, Nat.le_refl _, hr.symm, fun k hk1 hk2 => absurd hk2 (by omega), hfree⟩

end TrashPy

namespace TrashPy

/-! ### Messages, logs and results -/

/-- `Trash.perror`: under force return 0 silently, otherwise print
`trash: <s>[: <strerror>]` to stderr and return 1.  The result is the
count contributed to the aggregate plus the message printed (if any). -/
def perror (t : Trash) (s : String) (err : Option String) : Nat × Option String :=
  if t.force then (0, none)
  else (1, some (match err with
    | some e => "trash: " ++ s ++ ": " ++ e
    | none => "trash: " ++ s))

/-- `Trash.vprint`: printed lines when verbose, nothing otherwise. -/
def vprintL (t : Trash) (s : String) : List String :=
  if t.verbose then [s] else []

/-- Observable contribution of one loop iteration: error-count delta and
the stderr/stdout/prompt lines it emits, in order. -/
structure Delta where
  err : Nat
  stderr : List String
  stdout : List String
  prompts : List String
deriving Repr

/-- Result of one operation: final filesystem state, the integer the
Python method returns, and the logs. -/
structure OpResult where
  state : TrashState
  err : Nat
  stderr : List String
  stdout : List String
  prompts : List String
deriving Repr

/-- Empty result on a state. -/
def done (st : TrashState) : OpResult := ⟨st, 0, [], [], []⟩

/-- Prefix one iteration's contribution onto the result of the rest of
the loop. -/
def prepend (d : Delta) (r : OpResult) : OpResult :=
  ⟨r.state, d.err + r.err, d.stderr ++ r.stderr, d.stdout ++ r.stdout, d.prompts ++ r.prompts⟩

/-- The `Delta` of one `err += self.perror(...)` line. -/
def perrorDelta (t : Trash) (s : String) (err : Option String) : Delta :=
  ⟨(perror t s err).1, (perror t s err).2.toList, [], []⟩

/-- `prepend` through `Except` (used by `restore_trash`, whose loop can
be aborted by an uncaught `OSError`). -/
def emap (d : Delta) : Except String OpResult → Except String OpResult
  | .ok r => .ok (prepend d r)
  | .error e => .error e

/-! ### `read_info` and `relative_files` -/

/-- `Trash.read_info`: parse `INFO/<file.name>.trashinfo`; a missing file
or a missing `[Trash Info]` section yields both fields `"missing"`,
otherwise each of `Path`, `DeletionDate` defaults to `"missing"`
individually.  Returned as the pair `(Path, DeletionDate)`. -/
def read_info (st : TrashState) (file : EPath) : String × String :=
  match lookupA st.infoA (pname file) with
  | none => ("missing", "missing")
  | some f =>
    match lookupA f.sections "Trash Info" with
    | none => ("missing", "missing")
    | some sec =>
      ((lookupA sec "Path").getD "missing", (lookupA sec "DeletionDate").getD "missing")

/-- `Trash.relative_files`: no specifications means everything in the
files area when `fillEmpty` (else nothing); otherwise each specification
is globbed against the files area, an unmatched pattern being kept as the
literal files-area path `FILES/<spec>`. -/
def relative_files (st : TrashState) (files : List String) (fillEmpty : Bool) : List EPath :=
  if files.isEmpty then
    if fillEmpty then st.filesA.map (fun e => EPath.inFiles e.1) else []
  else
    (files.map fun pat =>
      let ms := (st.filesA.filter fun e => globMatch pat e.1).map fun e => EPath.inFiles e.1
      if ms.isEmpty then [EPath.inFiles pat] else ms).flatten

/-! ### `remove_trash` -/

/-- The record `remove_trash` writes:
`[Trash Info]` / `Path=<absolute>` / `DeletionDate=<now>`. -/
def infoContent (t : Trash) (file : EPath) : InfoFile :=
  ⟨[("Trash Info", [("Path", pabs file), ("DeletionDate", t.now)])]⟩

/-- One iteration of the `remove_trash` loop: optional prompt, resolve a
unique stored name, reject directories without recursive, move into the
files area, then write the metadata record. -/
def removeStep (t : Trash) (ask : String → Bool) (st : TrashState) (file : EPath) :
    TrashState × Delta :=
  let pm := "Trash " ++ pstr file
  if t.interactive && !ask pm then (st, ⟨0, [], [], [pm]⟩)
  else
    let pr := if t.interactive then [pm] else []
    let storedName := ensure_unqiue (st.filesA.map fun e => e.1) (st.infoA.map fun e => e.1)
      (pname file) (suffixesOf (pname file)) 2
    let isD := isDirB st file
    match (if isD && !t.recursive then Except.error "Is a directory"
           else moveAt st file (.inFiles storedName)) with
    | .error e => (st, ⟨(perror t (pstr file) (some e)).1,
        (perror t (pstr file) (some e)).2.toList, [], pr⟩)
    | .ok st' =>
      (writeInfo st' storedName (infoContent t file),
        ⟨0, [],
          vprintL t ("Trashed " ++ (if isD then "directory" else "file") ++ ": " ++ pstr file),
          pr⟩)

/-- The `remove_trash` loop. -/
def removeGo (t : Trash) (ask : String → Bool) (st : TrashState) : List EPath → OpResult
  | [] => done st
  | file :: rest =>
    let s := removeStep t ask st file
    prepend s.2 (removeGo t ask s.1 rest)

/-- `Trash.remove_trash`. -/
def remove_trash (t : Trash) (ask : String → Bool) (st : TrashState)
    (files : List EPath) : OpResult :=
  if files.isEmpty then
    ⟨st, (perror t "No files to remove" none).1, (perror t "No files to remove" none).2.toList,
      [], []⟩
  else removeGo t ask st files

/-! ### `list_trash` -/

/-- The line `list_trash` prints for one entry. -/
def listLine (st : TrashState) (file : EPath) : String :=
  let meta := read_info st file
  let slash := if isDirB st file then "/" else ""
  padTo19 (replaceTBySpace meta.2) ++ " " ++ (meta.1 ++ slash) ++ " ==> " ++ (pname file ++ slash)

/-- One iteration of the `list_trash` loop. -/
def listStep (t : Trash) (st : TrashState) (file : EPath) : Delta :=
  if pexists st file then ⟨0, [], [listLine st file], []⟩
  else perrorDelta t (pstr file ++ " does not exist") none

/-- The `list_trash` loop (read-only: the state never changes). -/
def listGo (t : Trash) (st : TrashState) : List EPath → OpResult
  | [] => done st
  | file :: rest => prepend (listStep t st file) (listGo t st rest)

/-- Insertion into a sorted list (Python `list.sort()` on paths). -/
def pathLe (a b : EPath) : Bool := charListLe (pstr a).data (pstr b).data

def insertSorted (x : EPath) : List EPath → List EPath
  | [] => [x]
  | y :: ys => if pathLe x y then x :: y :: ys else y :: insertSorted x ys

def sortFiles : List EPath → List EPath
  | [] => []
  | x :: xs => insertSorted x (sortFiles xs)

/-- `Trash.list_trash`.  With nothing to list the Python method hits a
bare `return` (`None`); the CLI shell turns that into exit status 0, so
it is modelled as a zero-error result. -/
def list_trash (t : Trash) (st : TrashState) (files : List String) : OpResult :=
  let rel := relative_files st files true
  if rel.isEmpty then done st
  else listGo t st (sortFiles rel)

/-! ### `empty_trash` -/

/-- One iteration of the `empty_trash` loop: optional prompt, `rmtree`
for directories under recursive else `unlink`, and on success the
idempotent removal of the metadata record. -/
def emptyStep (t : Trash) (ask : String → Bool) (st : TrashState) (file : EPath) :
    TrashState × Delta :=
  let pm := "Permanently delete " ++ pstr file
  if t.interactive && !ask pm then (st, ⟨0, [], [], [pm]⟩)
  else
    let pr := if t.interactive then [pm] else []
    match (if isDirB st file && t.recursive then rmtreeAt st file else unlinkAt st file) with
    | .error e => (st, ⟨(perror t (pstr file) (some e)).1,
        (perror t (pstr file) (some e)).2.toList, [], pr⟩)
    | .ok st' => (eraseInfo st' (pname file), ⟨0, [], vprintL t ("Removed " ++ pstr file), pr⟩)

/-- The `empty_trash` loop. -/
def emptyGo (t : Trash) (ask : String → Bool) (st : TrashState) : List EPath → OpResult
  | [] => done st
  | file :: rest =>
    let s := emptyStep t ask st file
    prepend s.2 (emptyGo t ask s.1 rest)

/-- `Trash.empty_trash`.  Note the control flow of the source: the
whole-trash confirmation branch is entered only when no specifications
were given AND force is off, and only inside that branch is the spec list
refilled with the files-area contents.  Outside that branch the loop runs
over the specifications exactly as given (raw, CWD-relative paths). -/
def empty_trash (t : Trash) (ask : String → Bool) (st : TrashState)
    (files : List String) : OpResult :=
  if files.isEmpty && !t.force then
    let pm := "Are you sure you want to empty all trash"
    if !ask pm then ⟨st, 0, [], [], [pm]⟩
    else prepend ⟨0, [], [], [pm]⟩ (emptyGo t ask st (relative_files st files true))
  else emptyGo t ask st (files.map EPath.world)

/-! ### `cat_trash` -/

/-- `Trash.cat_dir`/`Trash.cat_file` below an existing directory: the
directory label, then each child in iteration order (directories
recursively, files as label plus content). -/
def catNode (t : Trash) (path : String) : Node → List String
  | .file c => vprintL t ("File: " ++ path) ++ [c]
  | .dir children =>
    vprintL t ("Directory: " ++ path) ++
      (children.attach.map fun c => catNode t (path ++ "/" ++ c.1.1) c.1.2).flatten
termination_by n => sizeOf n
decreasing_by
  simp_wf
  obtain ⟨⟨n, node⟩, hm⟩ := c
  have h := List.sizeOf_lt_of_mem hm
  simp at h ⊢
  omega

/-- One iteration of the `cat_trash` loop: recurse into directories when
recursive is on, otherwise `read_text` (which raises on directories and
missing files, caught per item). -/
def catStep (t : Trash) (st : TrashState) (file : EPath) : Delta :=
  if isDirB st file && t.recursive then
    match nodeAt st file with
    | some n => ⟨0, [], catNode t (pstr file) n, []⟩
    | none => ⟨0, [], [], []⟩
  else
    match read_textAt st file with
    | .error e => perrorDelta t (pstr file) (some e)
    | .ok c => ⟨0, [], vprintL t ("File: " ++ pstr file) ++ [c], []⟩

/-- The `cat_trash` loop (read-only). -/
def catGo (t : Trash) (st : TrashState) : List EPath → OpResult
  | [] => done st
  | file :: rest => prepend (catStep t st file) (catGo t st rest)

/-- `Trash.cat_trash`. -/
def cat_trash (t : Trash) (st : TrashState) (files : List String) : OpResult :=
  if files.isEmpty then
    ⟨st, (perror t "No files to cat" none).1, (perror t "No files to cat" none).2.toList, [], []⟩
  else catGo t st (relative_files st files false)

/-! ### `restore_trash` -/

/-- The `restore_trash` loop.  Each item: existence check, directory
check, metadata lookup (`"missing"` sentinel skips), conflict handling
when the recorded destination exists (report / prompt / trash the
destination via a nested `remove_trash` whose nonzero return aborts the
item), then the unprotected `shutil.move` — whose failure is NOT caught
by the source and therefore aborts the whole loop (`Except.error`). -/
def restoreGo (t : Trash) (ask : String → Bool) (st : TrashState) :
    List EPath → Except String OpResult
  | [] => .ok (done st)
  | file :: rest =>
    if !pexists st file then
      emap (perrorDelta t (pstr file ++ " does not exist in trash") none)
        (restoreGo t ask st rest)
    else if isDirB st file && !t.recursive then
      emap (perrorDelta t (pstr file ++ ": Is a directory") none) (restoreGo t ask st rest)
    else if (read_info st file).1 == "missing" then
      emap (perrorDelta t (pstr file ++ ": Missing meta data. Must be manually restored.") none)
        (restoreGo t ask st rest)
    else
      let dest := (read_info st file).1
      if pexists st (.world dest) && !t.force && !t.interactive then
        emap (perrorDelta t (dest ++ " already exists") none) (restoreGo t ask st rest)
      else if pexists st (.world dest) && t.interactive && !ask ("Overwrite " ++ dest) then
        emap ⟨0, [], [], ["Overwrite " ++ dest]⟩ (restoreGo t ask st rest)
      else if pexists st (.world dest) then
        let pr : List String := if t.interactive then ["Overwrite " ++ dest] else []
        let sub := remove_trash t ask st [.world dest]
        if sub.err != 0 then
          emap ⟨0, sub.stderr, sub.stdout, pr ++ sub.prompts⟩ (restoreGo t ask sub.state rest)
        else
          match moveAt sub.state file (.world dest) with
          | .error e => .error e
          | .ok st' =>
            emap ⟨0, sub.stderr,
                sub.stdout ++ vprintL t ("Restored " ++ pname file ++ " to " ++ dest),
                pr ++ sub.prompts⟩
              (restoreGo t ask (eraseInfo st' (pname file)) rest)
      else
        match moveAt st file (.world dest) with
        | .error e => .error e
        | .ok st' =>
          emap ⟨0, [], vprintL t ("Restored " ++ pname file ++ " to " ++ dest), []⟩
            (restoreGo t ask (eraseInfo st' (pname file)) rest)

/-- `Trash.restore_trash`. -/
def restore_trash (t : Trash) (ask : String → Bool) (st : TrashState)
    (files : List String) : Except String OpResult :=
  if files.isEmpty then
    .ok ⟨st, (perror t "No files to restore" none).1,
      (perror t "No files to restore" none).2.toList, [], []⟩
  else restoreGo t ask st (relative_files st files false)

/-- `Trash.bad_command`. -/
def bad_command (t : Trash) (st : TrashState) : OpResult :=
  ⟨st, (perror t "Unknown command" none).1, (perror t "Unknown command" none).2.toList, [], []⟩

/-- `Trash.run`: dispatch on the command name; `remove` receives its
specifications as raw (CWD-relative) paths, the trash-relative commands
receive them as spec strings resolved internally. -/
def run (t : Trash) (ask : String → Bool) (st : TrashState) (cmd : String)
    (files : List String) : Except String OpResult :=
  if cmd == "remove" then .ok (remove_trash t ask st (files.map EPath.world))
  else if cmd == "list" then .ok (list_trash t st files)
  else if cmd == "empty" then .ok (empty_trash t ask st files)
  else if cmd == "restore" then restore_trash t ask st files
  else if cmd == "cat" then .ok (cat_trash t st files)
  else .ok (bad_command t st)

end TrashPy

namespace TrashPy

/-! ### Concrete fixtures used by witnesses and counterexamples -/

/-- All flags off. -/
def flagsOff : Trash := ⟨false, false, false, false, "2024-01-02T03:04:05"⟩

/-- Force on, everything else off. -/
def flagsForce : Trash := ⟨false, true, false, false, "2024-01-02T03:04:05"⟩

/-- Interactive on, everything else off. -/
def flagsInter : Trash := ⟨false, false, false, true, "2024-01-02T03:04:05"⟩

/-- Stdin that answers no (an empty answer) to every prompt. -/
def askNo : String → Bool := fun _ => false

/-- Stdin that answers `y` to every prompt. -/
def askYes : String → Bool := fun _ => true

/-- One trashed file `a.txt` with its metadata record; nothing outside. -/
def stOne : TrashState :=
  ⟨[("a.txt", .file "x")],
   [("a.txt", ⟨[("Trash Info",
      [("Path", "/home/u/a.txt"), ("DeletionDate", "2024-01-01T00:00:00")])]⟩)],
   []⟩

/-- Two distinct files, both named `a.txt`, in different directories. -/
def stTwo : TrashState :=
  ⟨[], [], [("/d1/a.txt", .file "one"), ("/d2/a.txt", .file "two")]⟩

/-- `stTwo` after trashing `/d1/a.txt`. -/
def stTwo1 : TrashState :=
  ⟨[("a.txt", .file "one")],
   [("a.txt", ⟨[("Trash Info",
      [("Path", "/d1/a.txt"), ("DeletionDate", "2024-01-02T03:04:05")])]⟩)],
   [("/d2/a.txt", .file "two")]⟩

/-- `stTwo1` after also trashing `/d2/a.txt`: stored names `a.txt` and
`a.2.txt`, each with its own correctly-linked record. -/
def stTwo2 : TrashState :=
  ⟨[("a.txt", .file "one"), ("a.2.txt", .file "two")],
   [("a.txt", ⟨[("Trash Info",
      [("Path", "/d1/a.txt"), ("DeletionDate", "2024-01-02T03:04:05")])]⟩),
    ("a.2.txt", ⟨[("Trash Info",
      [("Path", "/d2/a.txt"), ("DeletionDate", "2024-01-02T03:04:05")])]⟩)],
   []⟩

/-- A record that has the `[Trash Info]` section and a `DeletionDate` but
no `Path` key. -/
def stPartial : TrashState :=
  ⟨[("p.txt", .file "p")],
   [("p.txt", ⟨[("Trash Info", [("DeletionDate", "2024-05-06T07:08:09")])]⟩)],
   []⟩

/-- A live directory `/d` outside the trash. -/
def stDir : TrashState :=
  ⟨[], [], [("/d", .dir [("f.txt", .file "z")])]⟩

/-- A trashed `f.txt` whose recorded destination `/w/f.txt` exists. -/
def stConf : TrashState :=
  ⟨[("f.txt", .file "F")],
   [("f.txt", ⟨[("Trash Info",
      [("Path", "/w/f.txt"), ("DeletionDate", "2024-01-01T00:00:00")])]⟩)],
   [("/w", .dir []), ("/w/f.txt", .file "OLD")]⟩

/-- A trashed `f.txt` whose recorded destination `/w/d` exists and is a
directory (so a non-recursive nested remove of it fails). -/
def stConfD : TrashState :=
  ⟨[("f.txt", .file "F")],
   [("f.txt", ⟨[("Trash Info",
      [("Path", "/w/d"), ("DeletionDate", "2024-01-01T00:00:00")])]⟩)],
   [("/w/d", .dir [])]⟩

/-- A trashed `g.txt` whose record exists and whose `Path` value is the
literal string `missing`. -/
def stMissing : TrashState :=
  ⟨[("g.txt", .file "G")],
   [("g.txt", ⟨[("Trash Info", [("Path", "missing"), ("DeletionDate", "x")])]⟩)],
   []⟩

/-- Two restorable entries: `a.txt`'s recorded destination `/gone/a.txt`
is under a directory that no longer exists, `b.txt`'s destination
`/ok/b.txt` is fine. -/
def stGone : TrashState :=
  ⟨[("a.txt", .file "x"), ("b.txt", .file "y")],
   [("a.txt", ⟨[("Trash Info", [("Path", "/gone/a.txt"), ("DeletionDate", "d")])]⟩),
    ("b.txt", ⟨[("Trash Info", [("Path", "/ok/b.txt"), ("DeletionDate", "d")])]⟩)],
   [("/ok", .dir [])]⟩

end TrashPy

namespace TrashPy

/-! ### Helper lemmas: force mode, aggregation bounds -/

theorem perror_force (t : Trash) (s : String) (e : Option String) (h : t.force = true) :
    perror t s e = (0, none) := by
  simp [perror, h]

theorem emap_ok {d : Delta} {e : Except String OpResult} {r : OpResult}
    (h : emap d e = .ok r) : ∃ r', e = .ok r' ∧ r = prepend d r' := by
  cases e with
  | ok r' =>
    refine ⟨r', rfl, ?_⟩
    have : Except.ok (prepend d r') = (Except.ok r : Except String OpResult) := h
    exact (Except.ok.inj this).symm
  | error e => exact absurd h (by simp [emap])

theorem removeStep_force_eq (t : Trash) (ask : String → Bool) (st : TrashState) (file : EPath)
    (st' : TrashState) (d : Delta) (h : t.force = true)
    (he : removeStep t ask st file = (st', d)) : d.err = 0 ∧ d.stderr = [] := by
  unfold removeStep at he
  simp only [] at he
  split at he
  · cases he; exact ⟨rfl, rfl⟩
  · split at he
    · cases he; simp [perror_force t _ _ h]
    · cases he; exact ⟨rfl, rfl⟩

theorem removeStep_force (t : Trash) (ask : String → Bool) (st : TrashState) (file : EPath)
    (h : t.force = true) :
    (removeStep t ask st file).2.err = 0 ∧ (removeStep t ask st file).2.stderr = [] :=
  removeStep_force_eq t ask st file (removeStep t ask st file).1 (removeStep t ask st file).2 h rfl

theorem removeGo_force (t : Trash) (ask : String → Bool) (h : t.force = true) :
    ∀ (l : List EPath) (st : TrashState),
      (removeGo t ask st l).err = 0 ∧ (removeGo t ask st l).stderr = [] := by
  intro l
  induction l with
  | nil => exact fun st => ⟨rfl, rfl⟩
  | cons x xs ih =>
    intro st
    obtain ⟨h1, h2⟩ := removeStep_force t ask st x h
    obtain ⟨h3, h4⟩ := ih (removeStep t ask st x).1
    simp only [removeGo]
    exact ⟨by simp [prepend, h1, h3], by simp [prepend, h2, h4]⟩

theorem remove_trash_force (t : Trash) (ask : String → Bool) (st : TrashState)
    (files : List EPath) (h : t.force = true) :
    (remove_trash t ask st files).err = 0 ∧ (remove_trash t ask st files).stderr = [] := by
  unfold remove_trash
  split
  · simp [perror_force t _ _ h]
  · exact removeGo_force t ask h files st

theorem emptyStep_force_eq (t : Trash) (ask : String → Bool) (st : TrashState) (file : EPath)
    (st' : TrashState) (d : Delta) (h : t.force = true)
    (he : emptyStep t ask st file = (st', d)) : d.err = 0 ∧ d.stderr = [] := by
  unfold emptyStep at he
  simp only [] at he
  split at he
  · cases he; exact ⟨rfl, rfl⟩
  · split at he
    · cases he; simp [perror_force t _ _ h]
    · cases he; exact ⟨rfl, rfl⟩

theorem emptyStep_force (t : Trash) (ask : String → Bool) (st : TrashState) (file : EPath)
    (h : t.force = true) :
    (emptyStep t ask st file).2.err = 0 ∧ (emptyStep t ask st file).2.stderr = [] :=
  emptyStep_force_eq t ask st file (emptyStep t ask st file).1 (emptyStep t ask st file).2 h rfl

theorem emptyGo_force (t : Trash) (ask : String → Bool) (h : t.force = true) :
    ∀ (l : List EPath) (st : TrashState),
      (emptyGo t ask st l).err = 0 ∧ (emptyGo t ask st l).stderr = [] := by
  intro l
  induction l with
  | nil => exact fun st => ⟨rfl, rfl⟩
  | cons x xs ih =>
    intro st
    obtain ⟨h1, h2⟩ := emptyStep_force t ask st x h
    obtain ⟨h3, h4⟩ := ih (emptyStep t ask st x).1
    simp only [emptyGo]
    exact ⟨by simp [prepend, h1, h3], by simp [prepend, h2, h4]⟩

theorem empty_trash_force (t : Trash) (ask : String → Bool) (st : TrashState)
    (files : List String) (h : t.force = true) :
    (empty_trash t ask st files).err = 0 ∧ (empty_trash t ask st files).stderr = [] := by
  unfold empty_trash
  split
  · rename_i hcond
    rw [h] at hcond
    simp at hcond
  · exact emptyGo_force t ask h (files.map EPath.world) st

theorem listStep_force (t : Trash) (st : TrashState) (file : EPath) (h : t.force = true) :
    (listStep t st file).err = 0 ∧ (listStep t st file).stderr = [] := by
  unfold listStep
  split
  · exact ⟨rfl, rfl⟩
  · simp [perrorDelta, perror_force t _ _ h]

theorem listGo_force (t : Trash) (st : TrashState) (h : t.force = true) :
    ∀ l : List EPath, (listGo t st l).err = 0 ∧ (listGo t st l).stderr = [] := by
  intro l
  induction l with
  | nil => exact ⟨rfl, rfl⟩
  | cons x xs ih =>
    obtain ⟨h1, h2⟩ := listStep_force t st x h
    obtain ⟨h3, h4⟩ := ih
    simp only [listGo]
    exact ⟨by simp [prepend, h1, h3], by simp [prepend, h2, h4]⟩

theorem list_trash_force (t : Trash) (st : TrashState) (files : List String)
    (h : t.force = true) :
    (list_trash t st files).err = 0 ∧ (list_trash t st files).stderr = [] := by
  unfold list_trash
  by_cases hrel : (relative_files st files true).isEmpty = true
  · simp only [hrel, if_true]
    exact ⟨rfl, rfl⟩
  · rw [Bool.not_eq_true] at hrel
    simp only [hrel, Bool.false_eq_true, if_false]
    exact listGo_force t st h _

theorem catStep_force (t : Trash) (st : TrashState) (file : EPath) (h : t.force = true) :
    (catStep t st file).err = 0 ∧ (catStep t st file).stderr = [] := by
  unfold catStep
  split
  · split
    · exact ⟨rfl, rfl⟩
    · exact ⟨rfl, rfl⟩
  · split
    · simp [perrorDelta, perror_force t _ _ h]
    · exact ⟨rfl, rfl⟩

theorem catGo_force (t : Trash) (st : TrashState) (h : t.force = true) :
    ∀ l : List EPath, (catGo t st l).err = 0 ∧ (catGo t st l).stderr = [] := by
  intro l
  induction l with
  | nil => exact ⟨rfl, rfl⟩
  | cons x xs ih =>
    obtain ⟨h1, h2⟩ := catStep_force t st x h
    obtain ⟨h3, h4⟩ := ih
    simp only [catGo]
    exact ⟨by simp [prepend, h1, h3], by simp [prepend, h2, h4]⟩

theorem cat_trash_force (t : Trash) (st : TrashState) (files : List String)
    (h : t.force = true) :
    (cat_trash t st files).err = 0 ∧ (cat_trash t st files).stderr = [] := by
  unfold cat_trash
  split
  · simp [perror_force t _ _ h]
  · exact catGo_force t st h _

theorem restoreGo_force (t : Trash) (ask : String → Bool) (h : t.force = true) :
    ∀ (l : List EPath) (st : TrashState) (r : OpResult),
      restoreGo t ask st l = .ok r → r.err = 0 ∧ r.stderr = [] := by
  intro l
  induction l with
  | nil =>
    intro st r hr
    have hd : Except.ok (done st) = (Except.ok r : Except String OpResult) := by
      simpa [restoreGo] using hr
    rw [← Except.ok.inj hd]
    exact ⟨rfl, rfl⟩
  | cons x xs ih =>
    intro st r hr
    simp only [restoreGo] at hr
    split at hr
    · obtain ⟨r', hr', hpre⟩ := emap_ok hr
      obtain ⟨h3, h4⟩ := ih st r' hr'
      subst hpre
      simp [prepend, perrorDelta, perror_force t _ _ h, h3, h4]
    · split at hr
      · obtain ⟨r', hr', hpre⟩ := emap_ok hr
        obtain ⟨h3, h4⟩ := ih st r' hr'
        subst hpre
        simp [prepend, perrorDelta, perror_force t _ _ h, h3, h4]
      · split at hr
        · obtain ⟨r', hr', hpre⟩ := emap_ok hr
          obtain ⟨h3, h4⟩ := ih st r' hr'
          subst hpre
          simp [prepend, perrorDelta, perror_force t _ _ h, h3, h4]
        · split at hr
          · obtain ⟨r', hr', hpre⟩ := emap_ok hr
            obtain ⟨h3, h4⟩ := ih st r' hr'
            subst hpre
            simp [prepend, perrorDelta, perror_force t _ _ h, h3, h4]
          · split at hr
            · obtain ⟨r', hr', hpre⟩ := emap_ok hr
              obtain ⟨h3, h4⟩ := ih st r' hr'
              subst hpre
              simp [prepend, h3, h4]
            · split at hr
              · split at hr
                · obtain ⟨r', hr', hpre⟩ := emap_ok hr
                  obtain ⟨h3, h4⟩ := ih _ r' hr'
                  obtain ⟨hs1, hs2⟩ := remove_trash_force t ask st
                    [EPath.world (read_info st x).1] h
                  subst hpre
                  simp [prepend, h3, h4, hs2]
                · split at hr
                  · exact absurd hr (by simp)
                  · obtain ⟨r', hr', hpre⟩ := emap_ok hr
                    obtain ⟨h3, h4⟩ := ih _ r' hr'
                    obtain ⟨hs1, hs2⟩ := remove_trash_force t ask st
                      [EPath.world (read_info st x).1] h
                    subst hpre
                    simp [prepend, h3, h4, hs2]
              · split at hr
                · exact absurd hr (by simp)
                · obtain ⟨r', hr', hpre⟩ := emap_ok hr
                  obtain ⟨h3, h4⟩ := ih _ r' hr'
                  subst hpre
                  simp [prepend, h3, h4]

theorem restore_trash_force (t : Trash) (ask : String → Bool) (st : TrashState)
    (files : List String) (r : OpResult) (h : t.force = true)
    (hr : restore_trash t ask st files = .ok r) : r.err = 0 ∧ r.stderr = [] := by
  unfold restore_trash at hr
  split at hr
  · have := Except.ok.inj hr
    rw [← this]
    simp [perror_force t _ _ h]
  · exact restoreGo_force t ask h _ st r hr

theorem bad_command_force (t : Trash) (st : TrashState) (h : t.force = true) :
    (bad_command t st).err = 0 ∧ (bad_command t st).stderr = [] := by
  unfold bad_command
  simp [perror_force t _ _ h]

end TrashPy

namespace TrashPy

theorem run_force (t : Trash) (ask : String → Bool) (st : TrashState) (cmd : String)
    (files : List String) (r : OpResult) (hf : t.force = true)
    (h : run t ask st cmd files = .ok r) : r.err = 0 ∧ r.stderr = [] := by
  unfold run at h
  split at h
  · rw [← Except.ok.inj h]; exact remove_trash_force t ask st _ hf
  · split at h
    · rw [← Except.ok.inj h]; exact list_trash_force t st files hf
    · split at h
      · rw [← Except.ok.inj h]; exact empty_trash_force t ask st files hf
      · split at h
        · exact restore_trash_force t ask st files r hf h
        · split at h
          · rw [← Except.ok.inj h]; exact cat_trash_force t st files hf
          · rw [← Except.ok.inj h]; exact bad_command_force t st hf

theorem perror_fst_le (t : Trash) (s : String) (e : Option String) : (perror t s e).1 ≤ 1 := by
  unfold perror
  split <;> simp

theorem removeStep_err_le_eq (t : Trash) (ask : String → Bool) (st : TrashState) (file : EPath)
    (st' : TrashState) (d : Delta) (he : removeStep t ask st file = (st', d)) : d.err ≤ 1 := by
  unfold removeStep at he
  simp only [] at he
  split at he
  · cases he; exact Nat.zero_le 1
  · split at he
    · cases he; exact perror_fst_le t _ _
    · cases he; exact Nat.zero_le 1

theorem removeGo_err_le (t : Trash) (ask : String → Bool) :
    ∀ (l : List EPath) (st : TrashState), (removeGo t ask st l).err ≤ l.length := by
  intro l
  induction l with
  | nil => intro st; exact Nat.le_refl 0
  | cons x xs ih =>
    intro st
    have h1 := removeStep_err_le_eq t ask st x (removeStep t ask st x).1
      (removeStep t ask st x).2 rfl
    have h2 := ih (removeStep t ask st x).1
    simp only [removeGo, prepend, List.length_cons]
    omega

theorem emptyStep_err_le_eq (t : Trash) (ask : String → Bool) (st : TrashState) (file : EPath)
    (st' : TrashState) (d : Delta) (he : emptyStep t ask st file = (st', d)) : d.err ≤ 1 := by
  unfold emptyStep at he
  simp only [] at he
  split at he
  · cases he; exact Nat.zero_le 1
  · split at he
    · cases he; exact perror_fst_le t _ _
    · cases he; exact Nat.zero_le 1

theorem emptyGo_err_le (t : Trash) (ask : String → Bool) :
    ∀ (l : List EPath) (st : TrashState), (emptyGo t ask st l).err ≤ l.length := by
  intro l
  induction l with
  | nil => intro st; exact Nat.le_refl 0
  | cons x xs ih =>
    intro st
    have h1 := emptyStep_err_le_eq t ask st x (emptyStep t ask st x).1
      (emptyStep t ask st x).2 rfl
    have h2 := ih (emptyStep t ask st x).1
    simp only [emptyGo, prepend, List.length_cons]
    omega

theorem catStep_err_le (t : Trash) (st : TrashState) (file : EPath) :
    (catStep t st file).err ≤ 1 := by
  unfold catStep
  split
  · split
    · exact Nat.zero_le 1
    · exact Nat.zero_le 1
  · split
    · exact perror_fst_le t _ _
    · exact Nat.zero_le 1

theorem catGo_err_le (t : Trash) (st : TrashState) :
    ∀ l : List EPath, (catGo t st l).err ≤ l.length := by
  intro l
  induction l with
  | nil => exact Nat.le_refl 0
  | cons x xs ih =>
    have h1 := catStep_err_le t st x
    simp only [catGo, prepend, List.length_cons]
    omega

theorem listStep_err_le (t : Trash) (st : TrashState) (file : EPath) :
    (listStep t st file).err ≤ 1 := by
  unfold listStep
  split
  · exact Nat.zero_le 1
  · exact perror_fst_le t _ _

theorem listGo_err_le (t : Trash) (st : TrashState) :
    ∀ l : List EPath, (listGo t st l).err ≤ l.length := by
  intro l
  induction l with
  | nil => exact Nat.le_refl 0
  | cons x xs ih =>
    have h1 := listStep_err_le t st x
    simp only [listGo, prepend, List.length_cons]
    omega

end TrashPy

namespace TrashPy

/-! ### Claim-specific helper definitions and lemmas -/

/-- The situation `restore_trash` meets when an item is restorable but its
recorded destination already exists: the trash entry exists, the directory
gate passes, the metadata `Path` reads back as `dest` (not the sentinel),
and `dest` exists in the world. -/
def restoreConflict (t : Trash) (st : TrashState) (x : EPath) (dest : String) : Prop :=
  pexists st x = true ∧ (isDirB st x && !t.recursive) = false ∧
  (read_info st x).1 = dest ∧ dest ≠ "missing" ∧ pexists st (.world dest) = true

/-- Trashing `/d1/a.txt` into an empty trash stores it as `a.txt`. -/
theorem remove_twice_first :
    remove_trash flagsOff askNo stTwo [.world "/d1/a.txt"] = ⟨stTwo1, 0, [], [], []⟩ := by
  have h1 : ensure_unqiue (stTwo.filesA.map fun e => e.1) (stTwo.infoA.map fun e => e.1)
      (pname (EPath.world "/d1/a.txt")) (suffixesOf (pname (EPath.world "/d1/a.txt"))) 2
      = "a.txt" := ensure_unqiue_of_free _ _ _ _ _ (by decide)
  simp only [remove_trash, removeGo, removeStep, h1]
  rfl

/-- Trashing `/d2/a.txt` when `a.txt` is already stored resolves the
collision to `a.2.txt`. -/
theorem remove_twice_second :
    remove_trash flagsOff askNo stTwo1 [.world "/d2/a.txt"] = ⟨stTwo2, 0, [], [], []⟩ := by
  have h1 : ensure_unqiue (stTwo1.filesA.map fun e => e.1) (stTwo1.infoA.map fun e => e.1)
      (pname (EPath.world "/d2/a.txt")) (suffixesOf (pname (EPath.world "/d2/a.txt"))) 2
      = "a.2.txt" := by
    rw [ensure_unqiue_of_taken _ _ _ _ _ (by decide)]
    rw [show mkCand (stem (pname (EPath.world "/d2/a.txt"))) 2
        (String.join (suffixesOf (pname (EPath.world "/d2/a.txt")))) = "a.2.txt" from by decide]
    exact ensure_unqiue_of_free _ _ _ _ _ (by decide)
  simp only [remove_trash, removeGo, removeStep, h1]
  rfl

/-! ### The claims -/

/-- C1: the claim says `empty --force` with no path specifications deletes
every files-area entry and every matching info record without prompting,
leaving both areas empty.  The code does the opposite: with force on the
whole-trash confirmation branch (the only place the empty spec list is
refilled from the files area) is skipped, so the loop runs over the empty
spec list and nothing at all is deleted.  Evaluated at a trash holding
`a.txt` with its record: the state is returned unchanged (`done` also
records that no prompt was shown and no message printed), whatever the
prompt oracle would answer. -/
theorem empty_force_no_args_noop_eval :
    empty_trash flagsForce askNo stOne [] = done stOne
  ∧ empty_trash flagsForce askYes stOne [] = done stOne
  ∧ stOne.filesA = [("a.txt", Node.file "x")]
  ∧ stOne.infoA.length = 1 :=
  ⟨rfl, rfl, rfl, rfl⟩

/-- C2: the claim quantifies the `relative_files` resolution (fill-empty
when no specs; per-spec glob with literal fallback) over list, empty,
restore and cat.  It holds for list/restore/cat, but `empty_trash` never
calls `relative_files` on a nonempty spec list: evaluated at a trash
containing `a.txt`, `empty ["a.txt"]` unlinks the raw CWD path `a.txt`
(which does not exist — one error, trash untouched), while
`relative_files` would have resolved the same spec to the files-area entry
(conjuncts 2 and 3), and `list ["a.txt"]`, which does resolve, finds the
entry (conjunct 4). -/
theorem empty_bypasses_relative_files_eval :
    empty_trash flagsOff askNo stOne ["a.txt"]
      = ⟨stOne, 1, ["trash: a.txt: No such file or directory"], [], []⟩
  ∧ relative_files stOne ["a.txt"] false = [EPath.inFiles "a.txt"]
  ∧ relative_files stOne [] true = [EPath.inFiles "a.txt"]
  ∧ list_trash flagsOff stOne ["a.txt"]
      = ⟨stOne, 0, [], ["2024-01-01 00:00:00 /home/u/a.txt ==> a.txt"], []⟩ :=
  ⟨rfl, rfl, rfl, rfl⟩

/-- C3 counterexample: the claim says a per-item failure under force still
contributes 1 to the aggregate count.  Listing the nonexistent spec `zzz`
is a per-item failure (without force it reports `does not exist` and
returns 1, conjunct 2); with force on the very same failure returns 0, not
1, and prints nothing. -/
theorem force_counts_zero_cex :
    list_trash flagsForce stOne ["zzz"] = ⟨stOne, 0, [], [], []⟩
  ∧ list_trash flagsOff stOne ["zzz"]
      = ⟨stOne, 1, ["trash: /Trash/files/zzz does not exist"], [], []⟩ :=
  ⟨rfl, rfl⟩

/-- C3 (amended): force mode suppresses both the message and the count:
`perror` returns 0 under force, so every operation dispatched through
`run` that completes returns aggregate error count 0 and prints nothing
to stderr — there is no carve-out, the "no files to X" error behaves like
every other one. -/
theorem force_suppresses_messages_and_count (t : Trash) (ask : String → Bool)
    (st : TrashState) (cmd : String) (files : List String) (r : OpResult)
    (hf : t.force = true) (h : run t ask st cmd files = .ok r) :
    r.err = 0 ∧ r.stderr = [] :=
  run_force t ask st cmd files r hf h

/-- C3 witness: the amended theorem at the counterexample's input. -/
theorem force_suppresses_messages_and_count_witness :
    (list_trash flagsForce stOne ["zzz"]).err = 0
  ∧ (list_trash flagsForce stOne ["zzz"]).stderr = [] :=
  force_suppresses_messages_and_count flagsForce askNo stOne "list" ["zzz"]
    (list_trash flagsForce stOne ["zzz"]) rfl rfl

/-- C4: `ensure_unqiue` returns a stored name that is free in both the
files area and the info area (conjunct 1); a free bare name is returned
as-is (conjunct 2); on collision the result is
`stem ++ "." ++ counter ++ suffix-chain` for the first free counter
`c ≥ 2`, every counter between 2 and `c` having been tried and found
taken (conjunct 3); and trashing two distinct files both named `a.txt`
yields stored names `a.txt` and `a.2.txt` with two distinct records
correctly keyed to `/d1/a.txt` and `/d2/a.txt` (conjunct 4). -/
theorem ensure_unqiue_spec :
    (∀ (F I : List String) (name : String) (sfx : List String),
      isTaken F I (ensure_unqiue F I name sfx 2) = false)
  ∧ (∀ (F I : List String) (name : String) (sfx : List String),
      isTaken F I name = false → ensure_unqiue F I name sfx 2 = name)
  ∧ (∀ (F I : List String) (name : String) (sfx : List String),
      isTaken F I name = true →
      ∃ c, 2 ≤ c ∧ ensure_unqiue F I name sfx 2 = mkCand (stem name) c (String.join sfx)
        ∧ (∀ k, 2 ≤ k → k < c →
            isTaken F I (mkCand (stem name) k (String.join sfx)) = true)
        ∧ isTaken F I (mkCand (stem name) c (String.join sfx)) = false)
  ∧ (remove_trash flagsOff askNo stTwo [.world "/d1/a.txt"] = ⟨stTwo1, 0, [], [], []⟩
      ∧ remove_trash flagsOff askNo stTwo1 [.world "/d2/a.txt"] = ⟨stTwo2, 0, [], [], []⟩
      ∧ stTwo2.filesA.map (fun e => e.1) = ["a.txt", "a.2.txt"]
      ∧ read_info stTwo2 (.inFiles "a.txt") = ("/d1/a.txt", "2024-01-02T03:04:05")
      ∧ read_info stTwo2 (.inFiles "a.2.txt") = ("/d2/a.txt", "2024-01-02T03:04:05")) := by
  refine ⟨?_, ?_, ?_, remove_twice_first, remove_twice_second, rfl, rfl, rfl⟩
  · intro F I name sfx
    obtain ⟨fuel, r, h⟩ := ensureSteps_complete F I sfx _ name 2 rfl
    rw [ensureSteps_sound F I fuel name sfx 2 r h]
    exact ensureSteps_free F I fuel name sfx 2 r h
  · exact fun F I name sfx h => ensure_unqiue_of_free F I name sfx 2 h
  · intro F I name sfx ht
    obtain ⟨fuel, r, h⟩ := ensureSteps_complete F I sfx _ name 2 rfl
    rw [ensureSteps_sound F I fuel name sfx 2 r h]
    exact ensureSteps_form F I fuel name sfx 2 r h ht

/-- C4 witness: the resolver at concrete inputs — a fresh `a.txt` keeps
its name, and with `a.txt` taken in both areas the result is free. -/
theorem ensure_unqiue_spec_witness :
    ensure_unqiue [] [] "a.txt" [".txt"] 2 = "a.txt"
  ∧ isTaken ["a.txt"] ["a.txt"] (ensure_unqiue ["a.txt"] ["a.txt"] "a.txt" [".txt"] 2) = false :=
  ⟨ensure_unqiue_spec.2.1 [] [] "a.txt" [".txt"] (by decide),
   ensure_unqiue_spec.1 ["a.txt"] ["a.txt"] "a.txt" [".txt"]⟩

/-- C5: the collision probe terminates: for every finite occupied sets,
name, suffix list and starting counter there is a finite step budget
within which the step-indexed probe `ensureSteps` reaches exactly the
name `ensure_unqiue` returns. -/
theorem ensure_unqiue_terminates (F I : List String) (name : String) (sfx : List String)
    (count : Nat) :
    ∃ fuel, ensureSteps F I name sfx count fuel = some (ensure_unqiue F I name sfx count) := by
  obtain ⟨fuel, r, h⟩ := ensureSteps_complete F I sfx _ name count rfl
  refine ⟨fuel, ?_⟩
  rw [ensureSteps_sound F I fuel name sfx count r h]
  exact h

/-- C6 counterexample: the claim says a record lacking the `Path` key
reports BOTH fields as `"missing"`; but for a record that is present with
its `[Trash Info]` section, `DeletionDate` set and `Path` absent,
`read_info` keeps the real `DeletionDate`. -/
theorem read_info_keeps_deletion_date_cex :
    read_info stPartial (.inFiles "p.txt") = ("missing", "2024-05-06T07:08:09")
  ∧ lookupA stPartial.infoA "p.txt"
      = some ⟨[("Trash Info", [("DeletionDate", "2024-05-06T07:08:09")])]⟩
  ∧ ("2024-05-06T07:08:09" : String) ≠ "missing" :=
  ⟨rfl, rfl, by decide⟩

/-- C6 (amended): a missing record file, or a record without the
`[Trash Info]` section, reports both fields `"missing"`; when the section
is present each key defaults to `"missing"` individually, so a record
lacking only `Path` reports `Path = "missing"` together with the actual
recorded `DeletionDate`. -/
theorem read_info_sentinel_spec (st : TrashState) (x : EPath) :
    (lookupA st.infoA (pname x) = none → read_info st x = ("missing", "missing"))
  ∧ (∀ f : InfoFile, lookupA st.infoA (pname x) = some f →
      lookupA f.sections "Trash Info" = none → read_info st x = ("missing", "missing"))
  ∧ (∀ (f : InfoFile) (sec : List (String × String)) (d : String),
      lookupA st.infoA (pname x) = some f →
      lookupA f.sections "Trash Info" = some sec →
      lookupA sec "Path" = none → lookupA sec "DeletionDate" = some d →
      read_info st x = ("missing", d)) := by
  refine ⟨?_, ?_, ?_⟩
  · intro h
    simp [read_info, h]
  · intro f h1 h2
    simp [read_info, h1, h2]
  · intro f sec d h1 h2 h3 h4
    simp [read_info, h1, h2, h3, h4]

/-- C6 witness: the amended behaviour at concrete records — an absent
record gives the double sentinel, the Path-less record keeps its date. -/
theorem read_info_sentinel_spec_witness :
    read_info stPartial (.inFiles "q.txt") = ("missing", "missing")
  ∧ read_info stPartial (.inFiles "p.txt") = ("missing", "2024-05-06T07:08:09") :=
  ⟨(read_info_sentinel_spec stPartial (.inFiles "q.txt")).1 rfl,
   (read_info_sentinel_spec stPartial (.inFiles "p.txt")).2.2
     ⟨[("Trash Info", [("DeletionDate", "2024-05-06T07:08:09")])]⟩
     [("DeletionDate", "2024-05-06T07:08:09")] "2024-05-06T07:08:09" rfl rfl rfl rfl⟩

/-- C7: with recursive off, a directory item in the `remove_trash` loop
(reached past an optional confirmed prompt) contributes exactly one
`Is a directory` `perror` (count and message governed by force), the
state handed to the remaining items is the unchanged `st` — the
directory is still at its place and no files-area entry or metadata
record was created for it — and the loop goes on with `rest`. -/
theorem remove_dir_without_recursive (t : Trash) (ask : String → Bool) (st : TrashState)
    (x : EPath) (rest : List EPath)
    (hrec : t.recursive = false) (hdir : isDirB st x = true)
    (hask : t.interactive = true → ask ("Trash " ++ pstr x) = true) :
    removeGo t ask st (x :: rest)
      = prepend ⟨(perror t (pstr x) (some "Is a directory")).1,
                 (perror t (pstr x) (some "Is a directory")).2.toList, [],
                 if t.interactive then ["Trash " ++ pstr x] else []⟩
          (removeGo t ask st rest) := by
  have hstep : removeStep t ask st x
      = (st, ⟨(perror t (pstr x) (some "Is a directory")).1,
              (perror t (pstr x) (some "Is a directory")).2.toList, [],
              if t.interactive then ["Trash " ++ pstr x] else []⟩) := by
    unfold removeStep
    by_cases hI : t.interactive = true
    · simp [hI, hask hI, hdir, hrec]
    · simp [hI, hdir, hrec]
  simp only [removeGo, hstep]

/-- C7 witness: removing the live directory `/d` without recursive
reports `trash: /d: Is a directory` once and changes nothing. -/
theorem remove_dir_without_recursive_witness :
    removeGo flagsOff askNo stDir [.world "/d"]
      = prepend ⟨1, ["trash: /d: Is a directory"], [], []⟩ (removeGo flagsOff askNo stDir []) :=
  remove_dir_without_recursive flagsOff askNo stDir (.world "/d") [] rfl rfl (by decide)

/-- C8: restoring an item whose recorded destination exists.  Without
force or interactive the item is skipped with one reported
`already exists` error and the state (trash entry included) untouched
(conjunct 1); with interactive, declining the `Overwrite` prompt skips
silently (conjunct 2); otherwise (force, or interactive with the prompt
confirmed) the destination is first trashed through a nested
`remove_trash` call, and when that sub-call reports a nonzero failure
count the item's restore is aborted without moving anything — the loop
continues on the remaining items from the sub-call's state, adding the
sub-call's output but no error of its own (conjunct 3). -/
theorem restore_existing_destination_spec :
    (∀ (t : Trash) (ask : String → Bool) (st : TrashState) (x : EPath) (dest : String)
        (rest : List EPath), restoreConflict t st x dest →
      t.force = false → t.interactive = false →
      restoreGo t ask st (x :: rest)
        = emap ⟨1, ["trash: " ++ (dest ++ " already exists")], [], []⟩
            (restoreGo t ask st rest))
  ∧ (∀ (t : Trash) (ask : String → Bool) (st : TrashState) (x : EPath) (dest : String)
        (rest : List EPath), restoreConflict t st x dest →
      t.interactive = true → ask ("Overwrite " ++ dest) = false →
      restoreGo t ask st (x :: rest)
        = emap ⟨0, [], [], ["Overwrite " ++ dest]⟩ (restoreGo t ask st rest))
  ∧ (∀ (t : Trash) (ask : String → Bool) (st : TrashState) (x : EPath) (dest : String)
        (rest : List EPath), restoreConflict t st x dest →
      (t.force = true ∨ t.interactive = true) →
      (t.interactive = true → ask ("Overwrite " ++ dest) = true) →
      (remove_trash t ask st [.world dest]).err ≠ 0 →
      restoreGo t ask st (x :: rest)
        = emap ⟨0, (remove_trash t ask st [.world dest]).stderr,
                (remove_trash t ask st [.world dest]).stdout,
                (if t.interactive then ["Overwrite " ++ dest] else [])
                  ++ (remove_trash t ask st [.world dest]).prompts⟩
            (restoreGo t ask (remove_trash t ask st [.world dest]).state rest)) := by
  refine ⟨?_, ?_, ?_⟩
  · intro t ask st x dest rest hconf hf hi
    obtain ⟨hex, hdir, hread, hmiss, hdest⟩ := hconf
    have hne : ((dest : String) == "missing") = false := beq_eq_false_iff_ne.mpr hmiss
    simp only [restoreGo, hex, hdir, hread, hne]
    simp [hdest, hf, hi, perrorDelta, perror]
  · intro t ask st x dest rest hconf hi haskd
    obtain ⟨hex, hdir, hread, hmiss, hdest⟩ := hconf
    have hne : ((dest : String) == "missing") = false := beq_eq_false_iff_ne.mpr hmiss
    simp only [restoreGo, hex, hdir, hread, hne]
    simp [hdest, hi, haskd]
  · intro t ask st x dest rest hconf hfi haskc hsub
    obtain ⟨hex, hdir, hread, hmiss, hdest⟩ := hconf
    have hne : ((dest : String) == "missing") = false := beq_eq_false_iff_ne.mpr hmiss
    have hsubT : ((remove_trash t ask st [.world dest]).err != 0) = true := by
      simpa using hsub
    have hc2 : ¬(t.interactive = true ∧ ask ("Overwrite " ++ dest) = false) := by
      rintro ⟨hI, hA⟩
      rw [haskc hI] at hA
      exact absurd hA (by simp)
    simp only [restoreGo, hex, hdir, hread, hne, hdest, hsubT]
    simp only [Bool.not_eq_true] at hc2 ⊢
    rcases hfi with hF | hI
    · simp [hF, hc2]
    · simp [hI, haskc hI]

/-- C8 witness: the three behaviours at concrete states — report and
skip; prompt declined, skip; destination is a directory, the nested
non-recursive remove fails, the item is aborted with zero own errors
while the sub-call's message and prompts appear. -/
theorem restore_existing_destination_spec_witness :
    restoreGo flagsOff askNo stConf [.inFiles "f.txt"]
      = .ok ⟨stConf, 1, ["trash: /w/f.txt already exists"], [], []⟩
  ∧ restoreGo flagsInter askNo stConf [.inFiles "f.txt"]
      = .ok ⟨stConf, 0, [], [], ["Overwrite /w/f.txt"]⟩
  ∧ restoreGo flagsInter askYes stConfD [.inFiles "f.txt"]
      = .ok ⟨stConfD, 0, ["trash: /w/d: Is a directory"], [],
             ["Overwrite /w/d", "Trash /w/d"]⟩ :=
  ⟨restore_existing_destination_spec.1 flagsOff askNo stConf (.inFiles "f.txt") "/w/f.txt" []
      ⟨rfl, rfl, rfl, by decide, rfl⟩ rfl rfl,
   restore_existing_destination_spec.2.1 flagsInter askNo stConf (.inFiles "f.txt") "/w/f.txt" []
      ⟨rfl, rfl, rfl, by decide, rfl⟩ rfl rfl,
   restore_existing_destination_spec.2.2 flagsInter askYes stConfD (.inFiles "f.txt") "/w/d" []
      ⟨rfl, rfl, rfl, by decide, rfl⟩ (by decide) (by decide) (by decide)⟩

/-- C9 counterexample: the claim says no single item's failure aborts the
batch and every operation returns an integer count.  `restore_trash`'s
final `shutil.move` is unguarded: restoring `a.txt`, whose recorded
destination `/gone/a.txt` lies under a directory that no longer exists,
raises out of the loop (`Except.error`), so the following item `b.txt`
(restorable on its own, conjunct 3) is never attempted and no count is
returned. -/
theorem restore_unguarded_move_aborts_cex :
    restore_trash flagsOff askNo stGone ["a.txt", "b.txt"]
      = .error "No such file or directory"
  ∧ run flagsOff askNo stGone "restore" ["a.txt", "b.txt"]
      = .error "No such file or directory"
  ∧ (restore_trash flagsOff askNo stGone ["b.txt"]).isOk = true :=
  ⟨rfl, rfl, rfl⟩

/-- C9 (amended): remove, empty, cat and list always return an aggregate
failure count, each item contributing at most one failure (the loops
never abort: the count is bounded by the number of items), and `run` on
any command other than restore always produces a result; restore alone
can abort its batch, through its unguarded final move (see the
counterexample). -/
theorem ops_aggregate_failures_spec :
    (∀ (t : Trash) (ask : String → Bool) (st : TrashState) (l : List EPath),
      (removeGo t ask st l).err ≤ l.length)
  ∧ (∀ (t : Trash) (ask : String → Bool) (st : TrashState) (l : List EPath),
      (emptyGo t ask st l).err ≤ l.length)
  ∧ (∀ (t : Trash) (st : TrashState) (l : List EPath), (catGo t st l).err ≤ l.length)
  ∧ (∀ (t : Trash) (st : TrashState) (l : List EPath), (listGo t st l).err ≤ l.length)
  ∧ (∀ (t : Trash) (ask : String → Bool) (st : TrashState) (cmd : String)
      (files : List String), cmd ≠ "restore" → ∃ r, run t ask st cmd files = Except.ok r) := by
  refine ⟨fun t ask st l => removeGo_err_le t ask l st,
          fun t ask st l => emptyGo_err_le t ask l st,
          fun t st l => catGo_err_le t st l,
          fun t st l => listGo_err_le t st l, ?_⟩
  intro t ask st cmd files hcmd
  by_cases h1 : (cmd == "remove") = true
  · exact ⟨remove_trash t ask st (files.map EPath.world), by simp [run, h1]⟩
  · by_cases h2 : (cmd == "list") = true
    · exact ⟨list_trash t st files, by simp [run, h1, h2]⟩
    · by_cases h3 : (cmd == "empty") = true
      · exact ⟨empty_trash t ask st files, by simp [run, h1, h2, h3]⟩
      · by_cases h4 : (cmd == "restore") = true
        · exact absurd (by simpa using h4) hcmd
        · by_cases h5 : (cmd == "cat") = true
          · exact ⟨cat_trash t st files, by simp [run, h1, h2, h3, h4, h5]⟩
          · exact ⟨bad_command t st, by simp [run, h1, h2, h3, h4, h5]⟩

/-- C9 witness: a non-restore command dispatched through `run` returns a
result. -/
theorem ops_aggregate_failures_spec_witness :
    ∃ r, run flagsOff askNo stOne "list" [] = Except.ok r :=
  ops_aggregate_failures_spec.2.2.2.2 flagsOff askNo stOne "list" [] (by decide)

/-- C10: when a trashed item's record exists and its `Path` value is the
literal string `missing`, `restore_trash` cannot tell it from absent
metadata: the item is reported as `Missing meta data. Must be manually
restored.`, counted as one failure (force off), and skipped — the loop
continues on the remaining items from the unchanged state, so nothing is
ever restored to a path named `missing`. -/
theorem restore_skips_literal_missing_path (t : Trash) (ask : String → Bool)
    (st : TrashState) (x : EPath) (rest : List EPath) (f : InfoFile)
    (sec : List (String × String))
    (hrec2 : lookupA st.infoA (pname x) = some f)
    (hsec : lookupA f.sections "Trash Info" = some sec)
    (hpath : lookupA sec "Path" = some "missing")
    (hex : pexists st x = true)
    (hdir : (isDirB st x && !t.recursive) = false)
    (hf : t.force = false) :
    restoreGo t ask st (x :: rest)
      = emap ⟨1, ["trash: " ++ (pstr x ++ ": Missing meta data. Must be manually restored.")],
              [], []⟩
          (restoreGo t ask st rest) := by
  have hri : (read_info st x).1 = "missing" := by
    simp [read_info, hrec2, hsec, hpath]
  simp only [restoreGo, hex, hdir, hri]
  simp [perrorDelta, perror, hf]

/-- C10 witness: `g.txt` carries `Path=missing` in an existing record;
its restore is skipped with one counted failure and nothing moves. -/
theorem restore_skips_literal_missing_path_witness :
    restoreGo flagsOff askNo stMissing [.inFiles "g.txt"]
      = .ok ⟨stMissing, 1,
          ["trash: /Trash/files/g.txt: Missing meta data. Must be manually restored."],
          [], []⟩ :=
  restore_skips_literal_missing_path flagsOff askNo stMissing (.inFiles "g.txt") []
    ⟨[("Trash Info", [("Path", "missing"), ("DeletionDate", "x")])]⟩
    [("Path", "missing"), ("DeletionDate", "x")] rfl rfl rfl rfl rfl rfl

end TrashPy
